import Mathlib

/-!
# Verification of the mosdns fork's caching and plugin pipeline

Shallow embedding of the query-processing code: the redis cache plugin
(`getMsgKey`, `getRespFromCache`, `saveRespToCache`, `RedisCache.Exec`,
`doLazyUpdate`), the black-hole interceptors, the `clean_up_ecs` option
stripper, and the dnsmasq DHCP leases builder.

Conventions:
* wall-clock times and durations are `Int` nanoseconds (`second = 10^9`),
  matching Go's `time.Time`/`time.Duration`; `redis.KeepTTL` is the
  constant `-1`;
* DNS record TTLs are `Nat` (Go `uint32`);
* machine pointers are modelled as indices (`Ptr := Nat`) into an explicit
  heap, so Go's pointer (in)equality is index (in)equality and each
  allocation yields a fresh index;
* a Go panic is modelled by returning `none` from the embedded function.
-/

namespace Mosdns

/-- `time.Second` in nanoseconds. -/
def second : Int := 1000000000

/-- `redis.KeepTTL` (go-redis): the untyped constant `-1`. -/
def keepTTL : Int := -1

/-- `expiredMsgTtl` / `cache_backend.ExpiredMsgTtl`: TTL (seconds) given to
resource records served from an expired (lazy) cache entry. -/
def expiredMsgTtl : Nat := 5

/-- `dns.RcodeSuccess` (NOERROR). -/
def rcodeSuccess : Nat := 0
/-- `dns.RcodeServerFailure` (SERVFAIL). -/
def rcodeServerFailure : Nat := 2
/-- `dns.RcodeNameError` (NXDOMAIN). -/
def rcodeNameError : Nat := 3

/-- `dns.TypeA`. -/
def typeA : Nat := 1
/-- `dns.TypeCNAME`. -/
def typeCNAME : Nat := 5
/-- `dns.TypePTR`. -/
def typePTR : Nat := 12
/-- `dns.TypeAAAA`. -/
def typeAAAA : Nat := 28
/-- `dns.ClassINET`. -/
def classINET : Nat := 1

/-- A `netip.Addr`: either the invalid zero value, an IPv4 address or an
IPv6 address (addresses are abstracted to a numeric payload; only
`IsValid`/`Is4`/`Is6` dispatch and equality matter to the claims). -/
inductive Addr where
  | invalid : Addr
  | v4 (a : Nat) : Addr
  | v6 (a : Nat) : Addr
deriving DecidableEq, Repr

/-- `netip.Addr.IsValid`. -/
def Addr.isValid : Addr → Bool
  | .invalid => false
  | _ => true

/-- `netip.Addr.Is4`. -/
def Addr.is4 : Addr → Bool
  | .v4 _ => true
  | _ => false

/-- `netip.Addr.Is6` (true exactly for 16-byte addresses). -/
def Addr.is6 : Addr → Bool
  | .v6 _ => true
  | _ => false

/-- The rdata of a resource record, keeping just the constructors the
claims inspect (`dns.A`, `dns.AAAA`, `dns.CNAME`, `dns.PTR`); everything
else is `other`. -/
inductive RData where
  | a (addr : Addr) : RData
  | aaaa (addr : Addr) : RData
  | cname (target : String) : RData
  | ptrR (target : String) : RData
  | other : RData
deriving DecidableEq, Repr

/-- A resource record: `dns.RR_Header` fields the claims use plus rdata. -/
structure RR where
  name : String
  rtype : Nat
  rclass : Nat
  ttl : Nat
  rdata : RData
deriving DecidableEq, Repr

/-- `dns.Question`. -/
structure Question where
  name : String
  qtype : Nat
  qclass : Nat
deriving DecidableEq, Repr

/-- A `dns.Msg`: the header fields and sections used by the cache and the
interceptors. -/
structure Msg where
  id : Nat
  rcode : Nat
  truncated : Bool
  question : List Question
  answer : List RR
  ns : List RR
  extra : List RR
deriving DecidableEq, Repr

/-- A cache `Item` (plugin/executable/cache/iface.go): the stored response
with its two timestamps and the black-hole tag. -/
structure Item where
  resp : Msg
  blockHoleTag : String
  storedTime : Int
  expirationTime : Int
deriving DecidableEq, Repr

/-- Modelled from the spec: `dnsutils.SubtractTTL` (pkg/dnsutils is not in
the sources) — "return a copy with every RR's TTL decremented by
`now - StoredTime` (clamped ≥ 0)"; applied to every record of the three
sections, with `Nat` subtraction providing the clamp at 0. -/
def subtractTTL (m : Msg) (d : Nat) : Msg :=
  { m with
    answer := m.answer.map (fun rr => { rr with ttl := rr.ttl - d })
    ns := m.ns.map (fun rr => { rr with ttl := rr.ttl - d })
    extra := m.extra.map (fun rr => { rr with ttl := rr.ttl - d }) }

/-- Modelled from the spec: `dnsutils.SetTTL` (pkg/dnsutils is not in the
sources) — "return a copy with all TTLs set to `lazyTtl`". -/
def setTTL (m : Msg) (v : Nat) : Msg :=
  { m with
    answer := m.answer.map (fun rr => { rr with ttl := v })
    ns := m.ns.map (fun rr => { rr with ttl := v })
    extra := m.extra.map (fun rr => { rr with ttl := v }) }

/-- Modelled from the spec: `dnsutils.GetMinimalTTL` (pkg/dnsutils is not
in the sources) — `minTTL(r)`, the minimal TTL over all resource records
of the message (0 when the message has none). -/
def getMinimalTTL (m : Msg) : Nat :=
  ((m.answer ++ m.ns ++ m.extra).map RR.ttl).foldr min
    (((m.answer ++ m.ns ++ m.extra).map RR.ttl).headD 0)

/-- `setDefaultVal` (redis_cache utils): replaces nil sections by empty
slices; on the value level this is the identity. -/
def setDefaultVal (m : Msg) : Msg := m

/-- A cache backend (`cache.Cache[string,string]` /
`cache_backend.CacheBackend`), as an association list from keys to the
decoded items; `none` covers both a missing key and a value
`unmarshalItem` rejects. -/
def Backend := List (String × Item)

instance : DecidableEq Backend := by
  unfold Backend
  infer_instance

/-- `backend.Get` composed with `unmarshalItem`: the decoded item stored
under `k`, if any. -/
def backendGet (b : Backend) (k : String) : Option Item :=
  (b.find? (fun e => e.1 = k)).map (fun e => e.2)

/-- `backend.Store`: bind `k` to `item` (replacing any previous binding). -/
def backendSet (b : Backend) (k : String) (item : Item) : Backend :=
  (k, item) :: (List.filter (fun (e : String × Item) => ¬ e.1 = k) b)

/-- `getRespFromCache` (part_003 lines 119–148 / part_004 lines 524–553):
look the key up; on a decoded hit, serve a fresh entry with elapsed
seconds subtracted from every TTL, serve an expired entry with all TTLs
set to `lazyTtl` when lazy caching is enabled, and miss otherwise.
`uint32(now.Sub(storedTime).Seconds())` is the elapsed nanoseconds
divided by `second`, truncated. -/
def getRespFromCache (b : Backend) (msgKey : String) (now : Int)
    (lazyCacheEnabled : Bool) (lazyTtl : Nat) : Option (Msg × Bool) :=
  match backendGet b msgKey with
  | some item =>
    let resp := setDefaultVal item.resp
    if now < item.expirationTime then
      some (subtractTTL resp ((now - item.storedTime) / second).toNat, false)
    else if lazyCacheEnabled then
      some (setTTL resp lazyTtl, true)
    else
      none
  | none => none

/-- `saveRespToCache` (part_003 lines 63–113, the variant carrying the
black-hole tag; part_004 lines 567–616 is identical but for the tag):
reject truncated responses, derive `msgTtl`/`cacheTtl` from the rcode,
skip non-positive TTLs, and otherwise produce the stored `Item` together
with the physical TTL handed to `backend.Store`. -/
def saveRespToCache (now : Int) (r : Msg) (lazyCacheTtl : Int)
    (blackHoleTag : String) : Option (Item × Int) :=
  if r.truncated then none
  else
    let p : Int × Int :=
      if r.rcode = rcodeNameError then (30 * second, 30 * second)
      else if r.rcode = rcodeServerFailure then (5 * second, 5 * second)
      else if r.rcode = rcodeSuccess then
        let minTTL := getMinimalTTL r
        if r.answer.length = 0 then
          let msgTtl := (min minTTL 300 : Nat) * second
          (msgTtl, if lazyCacheTtl = keepTTL then keepTTL else msgTtl)
        else
          let msgTtl := (minTTL : Int) * second
          (msgTtl,
            if lazyCacheTtl = keepTTL then keepTTL
            else if lazyCacheTtl > 0 then lazyCacheTtl * second
            else msgTtl)
      else (0, 0)
    let msgTtl := p.1
    let cacheTtl := p.2
    if msgTtl ≤ 0 ∨ (cacheTtl ≤ 0 ∧ cacheTtl ≠ keepTTL) then none
    else
      some ({ resp := setDefaultVal r
              blockHoleTag := blackHoleTag
              storedTime := now
              expirationTime := now + msgTtl }, cacheTtl)

/-! ## Key derivation -/

/-- `dns.TypeToString` restricted to the types appearing in this
development; a Go map lookup on a missing key returns the zero value `""`. -/
def typeToString (t : Nat) : String :=
  if t = typeA then "A"
  else if t = typeCNAME then "CNAME"
  else if t = typePTR then "PTR"
  else if t = typeAAAA then "AAAA"
  else ""

/-- `dns.ClassToString`, same convention. -/
def classToString (c : Nat) : String :=
  if c = classINET then "IN" else ""

/-- `strings.TrimSpace`, written structurally over the character list so
that it reduces inside the kernel. -/
def trimSpace (s : String) : String :=
  String.mk (((s.data.dropWhile Char.isWhitespace).reverse.dropWhile
    Char.isWhitespace).reverse)

/-- `getMsgKey` (plugin/executable/cache/iface.go lines 119–126): reads
`q.Question[0]` unconditionally, so a message with an empty question
section panics (modelled by `none`); a message with several questions is
keyed by its first question. With a non-blank prefix the key is
`prefix sep TYPE sep CLASS sep NAME`, otherwise `TYPE sep CLASS sep NAME`. -/
def getMsgKey (q : Msg) (separator : String) (pfx : String) :
    Option String :=
  match q.question with
  | [] => none
  | question :: _ =>
    if (trimSpace pfx).length > 0 then
      some (pfx ++ separator ++ typeToString question.qtype ++ separator
        ++ classToString question.qclass ++ separator ++ question.name)
    else
      some (typeToString question.qtype ++ separator
        ++ classToString question.qclass ++ separator ++ question.name)

/-! ## Heap / pointer model

Go pointers become indices into an explicit heap of messages; allocation
appends, so any allocated index is distinct from every index already live. -/

/-- A machine pointer to a `dns.Msg`. -/
abbrev Ptr := Nat

/-- The heap of allocated messages. -/
structure Heap where
  msgs : List Msg
deriving DecidableEq, Repr

/-- Dereference a pointer. -/
def Heap.get (h : Heap) (p : Ptr) : Option Msg := h.msgs.get? p

/-- Allocate a new message, returning the extended heap and its pointer. -/
def Heap.alloc (h : Heap) (m : Msg) : Heap × Ptr :=
  ({ msgs := h.msgs ++ [m] }, h.msgs.length)

/-- Overwrite the message a pointer refers to (an in-place field update in
Go, such as `cachedResp.Id = q.Id`). -/
def Heap.setMsg (h : Heap) (p : Ptr) (m : Msg) : Heap :=
  { msgs := h.msgs.set p m }

/-- The mutable state outside a single query context: the heap, the cache
backend's contents and the number of `backend.Store` invocations. -/
structure World where
  heap : Heap
  backend : Backend
  storeCount : Nat
deriving DecidableEq

/-- A query context (`query_context.Context`): the query, the current
response pointer, and the black-hole fields. Modelled from the spec:
the `query_context` package is not in the sources; per §4.2 it is a
record with `R`, `SetResponse`, `SetBlackHoleOrigResp` /
`GetBlackHoleOrigResp`, `SetBlackHoleTag` / `GetBlackHoleTag` as plain
field accesses. -/
structure QCtx where
  q : Msg
  r : Option Ptr
  blackHoleOrigResp : Option Ptr
  blackHoleTag : String
deriving DecidableEq

/-- `getRespFromCache` at the pointer level: the Go function unmarshals
the backend value, which allocates a fresh message; the value-level result
is placed on the heap. -/
def getRespFromCacheP (w : World) (msgKey : String) (now : Int)
    (lazyCacheEnabled : Bool) (lazyTtl : Nat) : World × Option (Ptr × Bool) :=
  match getRespFromCache w.backend msgKey now lazyCacheEnabled lazyTtl with
  | some (m, lazyHit) =>
    let ap := w.heap.alloc m
    ({ w with heap := ap.1 }, some (ap.2, lazyHit))
  | none => (w, none)

/-- `saveRespToCache` at the pointer level: read the response the pointer
refers to, and when the value-level function stores it, update the backend
binding and count the `backend.Store` call. -/
def saveRespToCacheP (w : World) (msgKey : String) (p : Ptr) (now : Int)
    (lazyCacheTtl : Int) (blackHoleTag : String) : World :=
  match w.heap.get p with
  | some m =>
    match saveRespToCache now m lazyCacheTtl blackHoleTag with
    | some (item, _cacheTtl) =>
      { w with backend := backendSet w.backend msgKey item
               storeCount := w.storeCount + 1 }
    | none => w
  | none => w

/-- The store phase of `RedisCache.Exec`
(plugin/executable/cache/redis_cache/cache.go lines 166–173): when the
context holds a response whose pointer differs from `cachedResp`, store
the preserved `BlackHoleOrigResp` under `BlackHoleTag` when one exists,
the response itself with an empty tag otherwise. -/
def cacheStorePhase (msgKey : String) (now : Int) (lazyCacheTtl : Int)
    (cachedResp : Option Ptr) (w : World) (qCtx : QCtx) : World :=
  match qCtx.r with
  | some rp =>
    if cachedResp ≠ some rp then
      match qCtx.blackHoleOrigResp with
      | some op => saveRespToCacheP w msgKey op now lazyCacheTtl qCtx.blackHoleTag
      | none => saveRespToCacheP w msgKey rp now lazyCacheTtl ""
    else w
  | none => w

/-- The plugin configuration fields `RedisCache.Exec` reads. -/
structure CacheArgs where
  separator : String
  pfx : String
  storeOnly : Bool
  lazyCacheTTL : Int

/-- `RedisCache.Exec` (plugin/executable/cache/redis_cache/cache.go lines
136–175). `next` is the chain walker continuation. The Go source declares
`var cachedResp *dns.Msg = nil` at line 145 and then, inside the
`else` block, line 149 uses `cachedResp, lazyHit := ...`, a short variable
declaration that introduces a NEW `cachedResp` scoped to that block; the
outer variable therefore still holds nil when line 166 compares it with
`qCtx.R()`. The embedding mirrors this with `cachedResp := none` used in
the store phase while the hit handling binds its own local pointer.
The `doLazyUpdate` goroutine spawned on a lazy hit is modelled separately
(`SF` below); it does not touch the state of the current query.
A `none` result is a Go panic (from `getMsgKey`). -/
def RedisCacheExec (args : CacheArgs) (now : Int)
    (next : World → QCtx → World × QCtx)
    (w : World) (qCtx : QCtx) : Option (World × QCtx) :=
  match getMsgKey qCtx.q args.separator args.pfx with
  | none => none
  | some msgKey =>
    if msgKey.length = 0 then
      some (next w qCtx)
    else
      let cachedResp : Option Ptr := none
      let step1 : World × QCtx :=
        if args.storeOnly then (w, qCtx)
        else
          match getRespFromCacheP w msgKey now
              (args.lazyCacheTTL > 0 ∨ args.lazyCacheTTL = keepTTL)
              expiredMsgTtl with
          | (w', some (p, _lazyHit)) =>
            let w'' :=
              match w'.heap.get p with
              | some m => w'.heap.setMsg p { m with id := qCtx.q.id }
              | none => w'.heap
            ({ w' with heap := w'' }, { qCtx with r := some p })
          | (w', none) => (w', qCtx)
      let step2 := next step1.1 step1.2
      some (cacheStorePhase msgKey now args.lazyCacheTTL cachedResp
        step2.1 step2.2, step2.2)

/-! ## Black-hole plugins -/

/-- `BlackHole.Response` (black_hole.go lines 144–188): for a
single-question A (resp. AAAA) query with a non-empty configured IPv4
(resp. IPv6) list, a reply (`r.SetReply(q)`: the query's id and question,
NOERROR) answering every configured address with TTL 300; `nil`
otherwise. -/
def blackHoleResponse (ipv4 ipv6 : List Addr) (q : Msg) : Option Msg :=
  match q.question with
  | [question] =>
    if question.qtype = typeA ∧ ipv4 ≠ [] then
      some { id := q.id, rcode := rcodeSuccess, truncated := false
             question := q.question
             answer := ipv4.map (fun addr =>
               { name := question.name, rtype := typeA, rclass := classINET
                 ttl := 300, rdata := RData.a addr })
             ns := [], extra := [] }
    else if question.qtype = typeAAAA ∧ ipv6 ≠ [] then
      some { id := q.id, rcode := rcodeSuccess, truncated := false
             question := q.question
             answer := ipv6.map (fun addr =>
               { name := question.name, rtype := typeAAAA, rclass := classINET
                 ttl := 300, rdata := RData.aaaa addr })
             ns := [], extra := [] }
    else none
  | _ => none

/-- `matchRespAddr` (resp_match_black_hole.go lines 136–157): some answer
record of the current response is an A/AAAA whose address the net-list
matcher accepts. Matchers are the opaque `netlist.Matcher` interface,
passed as predicates. -/
def matchRespAddr (w : World) (qCtx : QCtx) (m : Addr → Bool) : Bool :=
  match qCtx.r with
  | none => false
  | some rp =>
    match w.heap.get rp with
    | none => false
    | some r =>
      r.answer.any (fun rr =>
        match rr.rdata with
        | RData.a addr => addr.isValid && m addr
        | RData.aaaa addr => addr.isValid && m addr
        | _ => false)

/-- `matchCName` (resp_match_black_hole.go lines 168–181): some answer
record is a CNAME whose target the domain matcher accepts. -/
def matchCName (w : World) (qCtx : QCtx) (m : String → Bool) : Bool :=
  match qCtx.r with
  | none => false
  | some rp =>
    match w.heap.get rp with
    | none => false
    | some r =>
      r.answer.any (fun rr =>
        match rr.rdata with
        | RData.cname target => m target
        | _ => false)

/-- `MatchBlackHole.matchesRespAddr`: short-circuit OR over the matcher
list. -/
def matchesRespAddr (w : World) (qCtx : QCtx) (ms : List (Addr → Bool)) :
    Bool :=
  ms.any (fun m => matchRespAddr w qCtx m)

/-- `MatchBlackHole.matchesCName`: short-circuit OR over the matcher
list. -/
def matchesCName (w : World) (qCtx : QCtx) (ms : List (String → Bool)) :
    Bool :=
  ms.any (fun m => matchCName w qCtx m)

/-- `MatchBlackHole.Exec` (resp_match_black_hole.go lines 112–125): when a
CNAME or response-address matcher fires and the black hole synthesizes a
reply, save the previous response (if any) in `BlackHoleOrigResp`, record
the plugin tag in `BlackHoleTag` and install the synthesized reply. -/
def matchBlackHoleExec (tag : String) (nm : List (Addr → Bool))
    (dm : List (String → Bool)) (bhIpv4 bhIpv6 : List Addr)
    (w : World) (qCtx : QCtx) : World × QCtx :=
  if matchesCName w qCtx dm || matchesRespAddr w qCtx nm then
    match blackHoleResponse bhIpv4 bhIpv6 qCtx.q with
    | some rm =>
      let ap := w.heap.alloc rm
      let qCtx1 :=
        if qCtx.r.isSome then { qCtx with blackHoleOrigResp := qCtx.r }
        else qCtx
      ({ w with heap := ap.1 },
       { qCtx1 with blackHoleTag := tag, r := some ap.2 })
    | none => (w, qCtx)
  else (w, qCtx)

/-! ## clean_up_ecs

`cleanUpECS.Exec` ranges over `qCtx.QOpt().Option` and, at each index
holding an EDNS0-SUBNET option, reassigns
`queryOpt.Option = append(queryOpt.Option[:i], queryOpt.Option[i+1:]...)`.
Go evaluates the range expression once: the loop visits the indices
`0 .. origLen-1` of the ORIGINAL slice header, but reads elements through
the shared backing array, which the appends mutate in place. The append
copies elements `i+1 .. n-1` down one slot (where `n` is the current
length) and shortens the slice; positions `n-1 .. origLen-1` of the
backing array keep their stale values. `queryOpt.Option[i+1:]` slices up
to the current length, so it panics when `i + 1 > n`. -/

/-- An EDNS0 option: its option code and an identifying payload. -/
structure EOpt where
  code : Nat
  payload : Nat
deriving DecidableEq, Repr

/-- `dns.EDNS0SUBNET`. -/
def ednsSubnet : Nat := 8

/-- Effect of `append(Option[:i], Option[i+1:]...)` on the backing array
of current length `n` (within capacity `arr.length`). -/
def ecsDeleteAt (arr : List EOpt) (n i : Nat) : List EOpt :=
  arr.take i ++ (arr.drop (i + 1)).take (n - 1 - i) ++ arr.drop (n - 1)

/-- The `for i, o := range queryOpt.Option` loop body, iterated over the
original indices; `arr` is the backing array, `n` the current slice
length, `i` the next index, `rem` the indices left to visit. `none` is the
slice-bounds panic raised by `queryOpt.Option[i+1:]` when `i + 1 > n`. -/
def cleanECSLoop : (arr : List EOpt) → (n i rem : Nat) →
    Option (List EOpt × Nat)
  | arr, n, _, 0 => some (arr, n)
  | arr, n, i, rem + 1 =>
    match arr.get? i with
    | some o =>
      if o.code = ednsSubnet then
        if i + 1 ≤ n then cleanECSLoop (ecsDeleteAt arr n i) (n - 1) (i + 1) rem
        else none
      else cleanECSLoop arr n (i + 1) rem
    | none => some (arr, n)

/-- `cleanUpECS.Exec` (clean_up_ecs section of cache.go, lines 196–208),
restricted to its effect on the query's option list; `none` is a panic. -/
def cleanUpECSExec (opts : List EOpt) : Option (List EOpt) :=
  (cleanECSLoop opts opts.length 0 opts.length).map
    (fun s => s.1.take s.2)

/-! ## dnsmasq_dhcp_leases -/

/-- A DHCP `dnsmasq.Lease` (the fields the builder reads). -/
structure Lease where
  hostname : String
  ipAddr : Addr
  expires : Int
deriving DecidableEq, Repr

/-- A `leasesGroup`: the per-hostname lease lists. -/
structure LeasesGroup where
  ipv4Leases : List Lease
  ipv6Leases : List Lease
deriving DecidableEq, Repr

/-- The `ipMap` Go map, as an association list (one binding per key). -/
def IpMap := List (String × LeasesGroup)

instance : DecidableEq IpMap := by
  unfold IpMap
  infer_instance

/-- Go map read: `ipMap[k]` (`nil` when absent). -/
def mapFind (m : IpMap) (k : String) : Option LeasesGroup :=
  (List.find? (fun (e : String × LeasesGroup) => e.1 = k) m).map
    (fun e => e.2)

/-- Go map write: `ipMap[k] = v`, replacing any existing binding. -/
def mapSet (m : IpMap) (k : String) (v : LeasesGroup) : IpMap :=
  if (List.find? (fun (e : String × LeasesGroup) => e.1 = k) m).isSome then
    List.map (fun (e : String × LeasesGroup) => if e.1 = k then (k, v) else e) m
  else
    List.append m [(k, v)]

/-- One iteration of the `Leases.buildMatchers` lease loop
(dnsmasq_dhcp_leases.go lines 126–155). The accumulator carries
`(ipMap, l.ipv4Leases, l.ipv6Leases)`. The Go code reads
`ips := ipMap[hostname]` (the bare hostname) but registers new groups
under `ipMap[hostname+"."]`; `ips` is a pointer, so the family appends
mutate the group under whichever binding it came from. The IPv6 branch
executes `l.ipv6Leases = append(l.ipv4Leases, lease)` — it extends the
IPv4 list. The reverse-lookup cache write is outside this data. -/
def buildMatchersStep (acc : IpMap × List Lease × List Lease)
    (lease : Lease) : IpMap × List Lease × List Lease :=
  if ¬ lease.ipAddr.isValid then acc
  else if lease.hostname = "*" then acc
  else
    let ipMap := acc.1
    let v4 := acc.2.1
    let v6 := acc.2.2
    match mapFind ipMap lease.hostname with
    | some g =>
      if lease.ipAddr.is4 then
        (mapSet ipMap lease.hostname { g with ipv4Leases := g.ipv4Leases ++ [lease] },
         v4 ++ [lease], v6)
      else if lease.ipAddr.is6 then
        (mapSet ipMap lease.hostname { g with ipv6Leases := g.ipv6Leases ++ [lease] },
         v4, v4 ++ [lease])
      else (ipMap, v4, v6)
    | none =>
      let key := lease.hostname ++ "."
      if lease.ipAddr.is4 then
        (mapSet ipMap key { ipv4Leases := [lease], ipv6Leases := [] },
         v4 ++ [lease], v6)
      else if lease.ipAddr.is6 then
        (mapSet ipMap key { ipv4Leases := [], ipv6Leases := [lease] },
         v4, v4 ++ [lease])
      else (mapSet ipMap key { ipv4Leases := [], ipv6Leases := [] }, v4, v6)

/-- `Leases.buildMatchers` (dnsmasq_dhcp_leases.go lines 118–162)
restricted to the data it builds: the `ipMap` that feeds the MixMatcher
(every key is added with the `full` kind) and the plugin-level
`l.ipv4Leases` / `l.ipv6Leases` lists. The configured suffix list
(`Args.Suffixs`) is not consulted anywhere in the function. -/
def buildMatchers (leases : List Lease) : IpMap × List Lease × List Lease :=
  leases.foldl buildMatchersStep ([], [], [])

/-! ## Single-flight lazy refresh

`RedisCache.doLazyUpdate` (part_003 lines 35–59) funnels every refresh
through `c.lazyUpdateSF.DoChan(msgKey, lazyUpdateFunc)`; the function body
runs `defer c.lazyUpdateSF.Forget(msgKey)`, so the key stays in flight
until the refresh completes. Modelled from the spec:
`golang.org/x/sync/singleflight` is an external library — "the
single-flight group keyed by `msgKey` guarantees at most one concurrent
refresh per key; a second lazy hit while refresh is in-flight returns the
stale copy and does not enqueue a duplicate refresh". -/

/-- The single-flight group's state: keys with a call in flight, plus the
number of refresh executions started. -/
structure SFState where
  inFlight : List String
  refreshCount : Nat
deriving DecidableEq, Repr

/-- `singleflight.Group.DoChan`: join an in-flight call for the key, or
start a new execution. -/
def sfDoChan (s : SFState) (key : String) : SFState :=
  if key ∈ s.inFlight then s
  else { inFlight := key :: s.inFlight, refreshCount := s.refreshCount + 1 }

/-- `singleflight.Group.Forget`, run by `lazyUpdateFunc`'s deferred call
when the refresh completes. -/
def sfForget (s : SFState) (key : String) : SFState :=
  { s with inFlight := s.inFlight.filter (fun k => k ≠ key) }

/-- `doLazyUpdate`'s interaction with the single-flight group: one
`DoChan` per lazy hit. -/
def doLazyUpdateModel (s : SFState) (msgKey : String) : SFState :=
  sfDoChan s msgKey

/-- `n` lazy hits on the same key with no intervening refresh
completion. -/
def lazyHits (s : SFState) (key : String) : Nat → SFState
  | 0 => s
  | n + 1 => lazyHits (doLazyUpdateModel s key) key n

/-! ## Statement helpers -/

/-- All resource records of a message, in section order. -/
def allRRs (m : Msg) : List RR := m.answer ++ m.ns ++ m.extra

/-- The `msgTtl` table of the claim: 30 s for NXDOMAIN, 5 s for SERVFAIL,
`min(minTTL, 300)` s for NOERROR with an empty answer, `minTTL` s for
NOERROR with a non-empty answer, 0 for every other rcode. -/
def claimMsgTtl (r : Msg) : Int :=
  if r.rcode = rcodeNameError then 30 * second
  else if r.rcode = rcodeServerFailure then 5 * second
  else if r.rcode = rcodeSuccess then
    if r.answer.length = 0 then (min (getMinimalTTL r) 300 : Nat) * second
    else (getMinimalTTL r : Int) * second
  else 0

/-- The `cacheTtl` the code derives (the TTL handed to `backend.Store`):
`KEEP_TTL` propagates only inside the NOERROR branches; NXDOMAIN and
SERVFAIL always store with their own `msgTtl`. -/
def claimCacheTtl (r : Msg) (lazyCacheTtl : Int) : Int :=
  if r.rcode = rcodeNameError then 30 * second
  else if r.rcode = rcodeServerFailure then 5 * second
  else if r.rcode = rcodeSuccess then
    if r.answer.length = 0 then
      if lazyCacheTtl = keepTTL then keepTTL
      else (min (getMinimalTTL r) 300 : Nat) * second
    else
      if lazyCacheTtl = keepTTL then keepTTL
      else if lazyCacheTtl > 0 then lazyCacheTtl * second
      else (getMinimalTTL r : Int) * second
  else 0

/-! ## Theorems -/

lemma saveRespToCache_normal (now : Int) (r : Msg) (lazyCacheTtl : Int)
    (tag : String) :
    saveRespToCache now r lazyCacheTtl tag =
      if r.truncated then none
      else if claimMsgTtl r ≤ 0 ∨
          (claimCacheTtl r lazyCacheTtl ≤ 0 ∧
            claimCacheTtl r lazyCacheTtl ≠ keepTTL) then none
      else some ({ resp := r, blockHoleTag := tag, storedTime := now
                   expirationTime := now + claimMsgTtl r },
        claimCacheTtl r lazyCacheTtl) := by
  unfold saveRespToCache claimMsgTtl claimCacheTtl setDefaultVal
  split_ifs <;> simp_all
  tauto

lemma lazyHits_of_inFlight (s : SFState) (key : String)
    (h : key ∈ s.inFlight) : ∀ m, lazyHits s key m = s := by
  intro m
  induction m with
  | zero => rfl
  | succ m ih =>
    have hd : doLazyUpdateModel s key = s := by
      simp [doLazyUpdateModel, sfDoChan, h]
    simp [lazyHits, hd, ih]

/-- C10: with the key not yet in flight, any positive number of
back-to-back lazy hits on the same key starts exactly one refresh
execution, and the key stays in flight (so further hits join it rather
than enqueue a duplicate). -/
theorem singleflight_one_refresh (s : SFState) (key : String) (n : Nat)
    (hni : key ∉ s.inFlight) (hn : 1 ≤ n) :
    (lazyHits s key n).refreshCount = s.refreshCount + 1 ∧
    key ∈ (lazyHits s key n).inFlight := by
  obtain ⟨m, rfl⟩ : ∃ m, n = m + 1 := ⟨n - 1, by omega⟩
  have hstep : doLazyUpdateModel s key =
      { inFlight := key :: s.inFlight, refreshCount := s.refreshCount + 1 } := by
    simp [doLazyUpdateModel, sfDoChan, hni]
  have hmem : key ∈ (doLazyUpdateModel s key).inFlight := by
    rw [hstep]; exact List.mem_cons_self _ _
  have hrest := lazyHits_of_inFlight (doLazyUpdateModel s key) key hmem m
  constructor
  · show (lazyHits (doLazyUpdateModel s key) key m).refreshCount = _
    rw [hrest, hstep]
  · show key ∈ (lazyHits (doLazyUpdateModel s key) key m).inFlight
    rw [hrest]; exact hmem

/-- C10 witness: three concurrent lazy hits on key "k" from an idle group
run exactly one refresh. -/
theorem singleflight_one_refresh_witness :
    (lazyHits ⟨[], 0⟩ "k" 3).refreshCount = 0 + 1 ∧
    "k" ∈ (lazyHits ⟨[], 0⟩ "k" 3).inFlight :=
  singleflight_one_refresh ⟨[], 0⟩ "k" 3 (by simp) (by omega)

/-- C9: `cleanUpECS.Exec` does not strip all EDNS0-SUBNET options: on the
option list [subnet, subnet, other] the deletion inside the `range` loop
shifts the second subnet option into the already-visited index, so it
survives; on [subnet, subnet] the second deletion slices
`queryOpt.Option[i+1:]` past the current length and panics. -/
theorem cleanUpECS_leaves_subnet :
    cleanUpECSExec [⟨8, 1⟩, ⟨8, 2⟩, ⟨10, 3⟩] = some [⟨8, 2⟩, ⟨10, 3⟩] ∧
    (List.any [(⟨8, 2⟩ : EOpt), ⟨10, 3⟩] (fun o => o.code = ednsSubnet)) = true ∧
    cleanUpECSExec [⟨8, 1⟩, ⟨8, 2⟩] = none := by
  refine ⟨by decide, by decide, by decide⟩

/-- A concrete IPv4 lease for hostname "printer". -/
def printerLeaseV4 : Lease := ⟨"printer", Addr.v4 1, 100⟩

/-- A concrete IPv6 lease for the same hostname. -/
def printerLeaseV6 : Lease := ⟨"printer", Addr.v6 2, 100⟩

/-- C8: processing two leases for the same hostname (one IPv4, one IPv6)
does NOT collect both in the hostname's group: the builder reads
`ipMap[hostname]` but registers groups under `ipMap[hostname+"."]`, so the
second lease creates a fresh group that overwrites the first one — the
group at "printer." has an empty IPv4 list. Additionally the plugin-level
IPv6 list receives the IPv4 leases (`l.ipv6Leases = append(l.ipv4Leases,
lease)`). -/
theorem buildMatchers_loses_leases :
    mapFind (buildMatchers [printerLeaseV4, printerLeaseV6]).1 "printer."
      = some ⟨[], [printerLeaseV6]⟩ ∧
    (buildMatchers [printerLeaseV4, printerLeaseV6]).2.1 = [printerLeaseV4] ∧
    (buildMatchers [printerLeaseV4, printerLeaseV6]).2.2
      = [printerLeaseV4, printerLeaseV6] := by
  refine ⟨by decide, by decide, by decide⟩

/-- A query with an empty question section. -/
def qNoQuestion : Msg :=
  { id := 1, rcode := 0, truncated := false, question := []
    answer := [], ns := [], extra := [] }

/-- A query carrying two questions. -/
def qTwoQuestions : Msg :=
  { id := 2, rcode := 0, truncated := false
    question := [⟨"example.com.", typeA, classINET⟩,
                 ⟨"other.example.", typeAAAA, classINET⟩]
    answer := [], ns := [], extra := [] }

/-- An upstream NOERROR answer for `qTwoQuestions`. -/
def respTwoQuestions : Msg :=
  { id := 2, rcode := rcodeSuccess, truncated := false
    question := qTwoQuestions.question
    answer := [⟨"example.com.", typeA, classINET, 60, RData.a (Addr.v4 9)⟩]
    ns := [], extra := [] }

/-- The cache plugin configuration used by the concrete scenarios. -/
def cacheArgs0 : CacheArgs := ⟨":", "", false, 0⟩

/-- The empty world: empty heap, empty backend, no stores. -/
def world0 : World := ⟨⟨[]⟩, [], 0⟩

/-- A fresh query context around a query. -/
def qctx0 (q : Msg) : QCtx := ⟨q, none, none, ""⟩

/-- A chain continuation that allocates `m` as the upstream response. -/
def nextAlloc (m : Msg) : World → QCtx → World × QCtx :=
  fun w c =>
    let ap := w.heap.alloc m
    ({ w with heap := ap.1 }, { c with r := some ap.2 })

/-- The identity chain continuation (downstream leaves the context
alone). -/
def idNext : World → QCtx → World × QCtx := fun w c => (w, c)

/-- C7: `getMsgKey` does not bypass queries whose question count differs
from 1: on a zero-question message it panics (`q.Question[0]` out of
range, modelled by `none`); on a two-question message it returns a
non-empty key built from the first question, and `RedisCache.Exec`
proceeds to store the upstream response under that key (one backend write
instead of the claimed bypass). -/
theorem getMsgKey_not_bypassing :
    getMsgKey qNoQuestion ":" "" = none ∧
    (RedisCacheExec cacheArgs0 0 idNext world0 (qctx0 qNoQuestion)) = none ∧
    getMsgKey qTwoQuestions ":" "" = some "A:IN:example.com." ∧
    ("A:IN:example.com." : String).length ≠ 0 ∧
    (RedisCacheExec cacheArgs0 0 (nextAlloc respTwoQuestions) world0
        (qctx0 qTwoQuestions)).map (fun res => res.1.storeCount) = some 1 := by
  refine ⟨by decide, by decide, by decide, by decide, by decide⟩

/-- A single-question A/IN query for "example.com.". -/
def qExample : Msg :=
  { id := 7, rcode := 0, truncated := false
    question := [⟨"example.com.", typeA, classINET⟩]
    answer := [], ns := [], extra := [] }

/-- The upstream NOERROR answer for `qExample` (one A record, TTL 60). -/
def respExample : Msg :=
  { id := 7, rcode := rcodeSuccess, truncated := false
    question := qExample.question
    answer := [⟨"example.com.", typeA, classINET, 60, RData.a (Addr.v4 9)⟩]
    ns := [], extra := [] }

/-- First query at t = 0: cache miss, upstream answers, response stored. -/
def c4Run1 : Option (World × QCtx) :=
  RedisCacheExec cacheArgs0 0 (nextAlloc respExample) world0 (qctx0 qExample)

/-- Second, back-to-back query at t = 10 s (inside the 60 s fresh window):
fresh hit, downstream leaves the response untouched. -/
def c4Run2 : Option (World × QCtx) :=
  match c4Run1 with
  | some res => RedisCacheExec cacheArgs0 (10 * second) idNext res.1
      (qctx0 qExample)
  | none => none

/-- C4: two back-to-back queries for the same (qtype, qclass, qname)
within the fresh window reach `backend.Store` TWICE, not once: the
short variable declaration at cache.go:149 shadows the `cachedResp`
compared at cache.go:166, which therefore always holds nil, so the fresh
hit installed by the cache itself is stored again after `next` returns. -/
theorem exec_stores_again_on_fresh_hit :
    (c4Run1.map (fun res => res.1.storeCount) = some 1) ∧
    (c4Run2.map (fun res => res.1.storeCount) = some 2) := by
  refine ⟨by decide, by decide⟩

lemma allRRs_subtractTTL (m : Msg) (d : Nat) :
    allRRs (subtractTTL m d) =
      (allRRs m).map (fun rr => { rr with ttl := rr.ttl - d }) := by
  simp [allRRs, subtractTTL]

lemma allRRs_setTTL (m : Msg) (v : Nat) :
    allRRs (setTTL m v) = (allRRs m).map (fun rr => { rr with ttl := v }) := by
  simp [allRRs, setTTL]

lemma natSub_toNat (a : Nat) (e : Int) (he : 0 ≤ e) :
    a - e.toNat = ((a : Int) - e).toNat := by omega

/-- C1: `getRespFromCache` behaves exactly as claimed: a missing (or
undecodable) entry is a miss; a fresh entry is served with every RR's TTL
decremented by the elapsed seconds, clamped at ≥ 0 (the `Int.toNat`), with
`lazyHit = false`; an expired entry is served with every TTL set to
`lazyTtl` and `lazyHit = true` when lazy caching is enabled, and is a miss
otherwise. -/
theorem getRespFromCache_spec (b : Backend) (k : String) (now : Int)
    (lazyEnabled : Bool) (lazyTtl : Nat) :
    (backendGet b k = none →
      getRespFromCache b k now lazyEnabled lazyTtl = none) ∧
    (∀ item, backendGet b k = some item →
      (now < item.expirationTime → item.storedTime ≤ now →
        getRespFromCache b k now lazyEnabled lazyTtl =
          some (subtractTTL item.resp
            ((now - item.storedTime) / second).toNat, false) ∧
        ∀ i, (allRRs (subtractTTL item.resp
            ((now - item.storedTime) / second).toNat)).get? i =
          ((allRRs item.resp).get? i).map (fun rr =>
            { rr with
              ttl := ((rr.ttl : Int) - (now - item.storedTime) / second).toNat })) ∧
      (item.expirationTime ≤ now → lazyEnabled = true →
        getRespFromCache b k now lazyEnabled lazyTtl =
          some (setTTL item.resp lazyTtl, true) ∧
        ∀ i, (allRRs (setTTL item.resp lazyTtl)).get? i =
          ((allRRs item.resp).get? i).map (fun rr => { rr with ttl := lazyTtl })) ∧
      (item.expirationTime ≤ now → lazyEnabled = false →
        getRespFromCache b k now lazyEnabled lazyTtl = none)) := by
  constructor
  · intro h
    simp [getRespFromCache, h]
  · intro item h
    refine ⟨?_, ?_, ?_⟩
    · intro hfresh hst
      constructor
      · simp [getRespFromCache, h, setDefaultVal, hfresh]
      · intro i
        have hnn : 0 ≤ (now - item.storedTime) / second :=
          Int.ediv_nonneg (by omega) (by norm_num [second])
        rw [allRRs_subtractTTL, List.get?_map]
        cases hrr : (allRRs item.resp).get? i with
        | none => rfl
        | some rr =>
          simp only [Option.map_some']
          simp [natSub_toNat rr.ttl ((now - item.storedTime) / second) hnn]
    · intro hexp hlazy
      have hnot : ¬ now < item.expirationTime := by omega
      constructor
      · simp [getRespFromCache, h, setDefaultVal, hnot, hlazy]
      · intro i
        rw [allRRs_setTTL, List.get?_map]
    · intro hexp hlazy
      have hnot : ¬ now < item.expirationTime := by omega
      simp [getRespFromCache, h, setDefaultVal, hnot, hlazy]

/-- The cache item used by the retrieval witness: `respExample` stored at
t = 0, expiring at t = 60 s. -/
def itemW : Item :=
  { resp := respExample, blockHoleTag := ""
    storedTime := 0, expirationTime := 60 * second }

/-- C1 witness: a fresh hit at t = 10 s serves the stored answer with its
TTL reduced by 10. -/
theorem getRespFromCache_spec_witness :
    getRespFromCache [("k", itemW)] "k" (10 * second) false 5 =
      some (subtractTTL itemW.resp 10, false) := by
  have h := ((getRespFromCache_spec [("k", itemW)] "k" (10 * second) false
    5).2 itemW (by decide)).1 (by decide) (by decide)
  have he : ((10 * second - itemW.storedTime) / second).toNat = 10 := by decide
  rw [h.1, he]

/-- C2: `saveRespToCache` rejects truncated responses; whatever it stores
has `ExpirationTime - StoredTime` equal to the claimed `msgTtl` table
(30 s NXDOMAIN, 5 s SERVFAIL, `min(minTTL, 300)` s NOERROR/empty,
`minTTL` s NOERROR/non-empty), stores the response itself under the given
tag at `StoredTime = now`, and stores nothing whenever `msgTtl ≤ 0` or the
derived `cacheTtl` is non-positive without being `KEEP_TTL`. -/
theorem saveRespToCache_spec (now : Int) (r : Msg) (lazyCacheTtl : Int)
    (tag : String) :
    (r.truncated = true → saveRespToCache now r lazyCacheTtl tag = none) ∧
    (∀ item ct, saveRespToCache now r lazyCacheTtl tag = some (item, ct) →
      item.expirationTime - item.storedTime = claimMsgTtl r ∧
      item.storedTime = now ∧ item.resp = r ∧ item.blockHoleTag = tag ∧
      0 < claimMsgTtl r ∧ (0 < ct ∨ ct = keepTTL)) ∧
    (claimMsgTtl r ≤ 0 ∨
        (claimCacheTtl r lazyCacheTtl ≤ 0 ∧
          claimCacheTtl r lazyCacheTtl ≠ keepTTL) →
      saveRespToCache now r lazyCacheTtl tag = none) := by
  rw [saveRespToCache_normal]
  refine ⟨?_, ?_, ?_⟩
  · intro h
    simp [h]
  · intro item ct h
    by_cases htr : r.truncated
    · simp [htr] at h
    by_cases hskip : claimMsgTtl r ≤ 0 ∨
        (claimCacheTtl r lazyCacheTtl ≤ 0 ∧ claimCacheTtl r lazyCacheTtl ≠ keepTTL)
    · rw [if_neg htr, if_pos hskip] at h
      cases h
    rw [if_neg htr, if_neg hskip] at h
    injection h with h'
    injection h' with h1 h2
    subst h1
    subst h2
    push_neg at hskip
    refine ⟨by simp, rfl, rfl, rfl, hskip.1, ?_⟩
    rcases lt_or_le 0 (claimCacheTtl r lazyCacheTtl) with hc | hc
    · exact Or.inl hc
    · exact Or.inr (hskip.2 hc)
  · intro h
    by_cases htr : r.truncated <;> simp [htr, h]

/-- A NOERROR response with one answer record (TTL 60); used by the
storage witnesses. -/
def okResp : Msg := respExample

/-- C2 witness: storing `okResp` at t = 0 yields an entry expiring after
exactly `minTTL = 60` seconds. -/
theorem saveRespToCache_spec_witness :
    (saveRespToCache 0 okResp 0 "tag").map
        (fun x => x.1.expirationTime - x.1.storedTime) = some (claimMsgTtl okResp)
      ∧ claimMsgTtl okResp = 60 * second := by
  have hsave : saveRespToCache 0 okResp 0 "tag" = some
      ({ resp := okResp, blockHoleTag := "tag", storedTime := 0
         expirationTime := 60 * second }, 60 * second) := by decide
  have h := ((saveRespToCache_spec 0 okResp 0 "tag").2.1
    { resp := okResp, blockHoleTag := "tag", storedTime := 0
      expirationTime := 60 * second } (60 * second) hsave).1
  exact ⟨by rw [hsave, Option.map_some', h], by decide⟩

/-- A stored NXDOMAIN response. -/
def nxResp : Msg :=
  { id := 3, rcode := rcodeNameError, truncated := false
    question := [⟨"nx.example.", typeA, classINET⟩]
    answer := [], ns := [], extra := [] }

/-- C3 counterexample: with `lazyCacheTtl = KEEP_TTL`, storing an NXDOMAIN
response passes `30 s` — not `KEEP_TTL` — to `backend.Store`, so the
claim's "any Rcode" universal fails (a refresh does reset the remote
entry's physical expiry). -/
theorem saveRespToCache_keepttl_counterexample :
    (saveRespToCache 0 nxResp keepTTL "t").map (fun x => x.2) =
      some (30 * second) ∧ (30 * second : Int) ≠ keepTTL := by
  refine ⟨by decide, by decide⟩

/-- C3 amended: only NOERROR responses stored under
`lazyCacheTtl = KEEP_TTL` hand `KEEP_TTL` to `backend.Store`; stored
NXDOMAIN and SERVFAIL entries always use their own `msgTtl` (30 s and 5 s
respectively), resetting any existing physical expiry. -/
theorem saveRespToCache_keepttl_amended (now : Int) (r : Msg) (tag : String)
    (item : Item) (ct : Int)
    (h : saveRespToCache now r keepTTL tag = some (item, ct)) :
    (r.rcode = rcodeSuccess → ct = keepTTL) ∧
    (r.rcode = rcodeNameError → ct = 30 * second) ∧
    (r.rcode = rcodeServerFailure → ct = 5 * second) := by
  rw [saveRespToCache_normal] at h
  by_cases htr : r.truncated
  · simp [htr] at h
  by_cases hskip : claimMsgTtl r ≤ 0 ∨
      (claimCacheTtl r keepTTL ≤ 0 ∧ claimCacheTtl r keepTTL ≠ keepTTL)
  · rw [if_neg htr, if_pos hskip] at h
    cases h
  rw [if_neg htr, if_neg hskip] at h
  injection h with h'
  injection h' with h1 h2
  subst h2
  refine ⟨?_, ?_, ?_⟩ <;> intro hrc <;>
    simp [claimCacheTtl, hrc, rcodeSuccess, rcodeNameError, rcodeServerFailure]

/-- The item stored for `okResp` under `KEEP_TTL`. -/
def itemKeep : Item :=
  { resp := okResp, blockHoleTag := "t"
    storedTime := 0, expirationTime := 60 * second }

/-- C3 amended witness: a NOERROR response with a non-empty answer stored
under `KEEP_TTL` passes `KEEP_TTL` to the backend. -/
theorem saveRespToCache_keepttl_amended_witness :
    saveRespToCache 0 okResp keepTTL "t" = some (itemKeep, keepTTL) ∧
    (keepTTL : Int) = keepTTL :=
  ⟨by decide,
   (saveRespToCache_keepttl_amended 0 okResp "t" itemKeep keepTTL
     (by decide)).1 (by decide)⟩

lemma heap_get_setMsg_self (h : Heap) (p : Ptr) (m m' : Msg)
    (hp : h.get p = some m') : (h.setMsg p m).get p = some m := by
  unfold Heap.get Heap.setMsg at *
  have hlt : p < h.msgs.length := by
    rcases List.get?_eq_some.1 hp with ⟨hl, _⟩
    exact hl
  rw [List.get?_eq_getElem?]
  exact List.getElem?_set_eq_of_lt m hlt

lemma saveRespToCacheP_heap (w : World) (k : String) (p : Ptr)
    (now lazyTtl : Int) (tag : String) :
    (saveRespToCacheP w k p now lazyTtl tag).heap = w.heap := by
  rcases hw : w.heap.get p with _ | m
  · simp [saveRespToCacheP, hw]
  · rcases hs : saveRespToCache now m lazyTtl tag with _ | ⟨item, ct⟩ <;>
      simp [saveRespToCacheP, hw, hs]

lemma cacheStorePhase_heap (msgKey : String) (now lazyTtl : Int)
    (cachedResp : Option Ptr) (w : World) (qCtx : QCtx) :
    (cacheStorePhase msgKey now lazyTtl cachedResp w qCtx).heap = w.heap := by
  rcases h : qCtx.r with _ | rp
  · simp [cacheStorePhase, h]
  · rcases ho : qCtx.blackHoleOrigResp with _ | op <;>
      simp only [cacheStorePhase, h, ho] <;>
      split_ifs <;>
      simp [saveRespToCacheP_heap]

/-- C5: whenever the cache plugin hits (fresh or lazy), the message it
installs as the context's response carries the query's Id: with the
downstream chain leaving the context untouched, the final context's
response pointer is the cache's copy and the heap holds it with
`Id = Q.Id`. -/
theorem exec_rewrites_id (args : CacheArgs) (now : Int) (w w' : World)
    (qCtx : QCtx) (k : String) (p : Ptr) (lz : Bool) (m : Msg)
    (hstore : args.storeOnly = false)
    (hkey : getMsgKey qCtx.q args.separator args.pfx = some k)
    (hk : ¬ k.length = 0)
    (hget : getRespFromCacheP w k now
      (args.lazyCacheTTL > 0 ∨ args.lazyCacheTTL = keepTTL) expiredMsgTtl
      = (w', some (p, lz)))
    (hm : w'.heap.get p = some m) :
    ∃ res, RedisCacheExec args now idNext w qCtx = some res ∧
      res.2.r = some p ∧
      res.1.heap.get p = some { m with id := qCtx.q.id } := by
  have hmain : RedisCacheExec args now idNext w qCtx =
      some (cacheStorePhase k now args.lazyCacheTTL none
          { w' with heap := w'.heap.setMsg p { m with id := qCtx.q.id } }
          { qCtx with r := some p },
        { qCtx with r := some p }) := by
    unfold RedisCacheExec
    rw [hkey]
    simp only [hk, if_false, hstore, Bool.false_eq_true, hget, hm, idNext]
  refine ⟨_, hmain, rfl, ?_⟩
  simp only [cacheStorePhase_heap]
  exact heap_get_setMsg_self _ _ _ _ hm

/-- The backend holding `itemW` under `qExample`'s key. -/
def backendW : Backend := [("A:IN:example.com.", itemW)]

/-- World before the hit: empty heap, `backendW`, no stores. -/
def wWit : World := ⟨⟨[]⟩, backendW, 0⟩

/-- World after `getRespFromCacheP` allocated the served copy. -/
def wHit : World := ⟨⟨[subtractTTL itemW.resp 10]⟩, backendW, 0⟩

/-- C5 witness: a concrete fresh hit at t = 10 s installs the cached copy
with its Id rewritten to the query's. -/
theorem exec_rewrites_id_witness :
    ∃ res, RedisCacheExec cacheArgs0 (10 * second) idNext wWit
        (qctx0 qExample) = some res ∧
      res.2.r = some 0 ∧
      res.1.heap.get 0 =
        some { subtractTTL itemW.resp 10 with id := (qctx0 qExample).q.id } :=
  exec_rewrites_id cacheArgs0 (10 * second) wWit wHit (qctx0 qExample)
    "A:IN:example.com." 0 false (subtractTTL itemW.resp 10)
    rfl (by decide) (by decide) (by decide) (by decide)

lemma get?_append_singleton_length {α : Type} (l : List α) (a : α) :
    (l ++ [a]).get? l.length = some a := by
  induction l with
  | nil => rfl
  | cons x xs ih => exact ih

lemma backendGet_set_self (b : Backend) (k : String) (item : Item) :
    backendGet (backendSet b k item) k = some item := by
  simp [backendGet, backendSet, List.find?]

/-- C6: (a) when the response-matching black hole replaces an existing
response, it first saves the previous response in `BlackHoleOrigResp` and
records its own tag in `BlackHoleTag`, installing the synthesized reply at
a fresh pointer; (b) the cache's store phase then persists the preserved
original response — not the rewritten one — tagged with the context's
`BlackHoleTag`. -/
theorem blackhole_originals_stored :
    (∀ (tag : String) (nm : List (Addr → Bool)) (dm : List (String → Bool))
        (bhIpv4 bhIpv6 : List Addr) (w : World) (qCtx : QCtx)
        (orp : Ptr) (om rm : Msg),
      qCtx.r = some orp →
      w.heap.get orp = some om →
      (matchesCName w qCtx dm || matchesRespAddr w qCtx nm) = true →
      blackHoleResponse bhIpv4 bhIpv6 qCtx.q = some rm →
      (matchBlackHoleExec tag nm dm bhIpv4 bhIpv6 w qCtx).2.blackHoleOrigResp
          = some orp ∧
      (matchBlackHoleExec tag nm dm bhIpv4 bhIpv6 w qCtx).2.blackHoleTag = tag ∧
      (matchBlackHoleExec tag nm dm bhIpv4 bhIpv6 w qCtx).2.r
          = some w.heap.msgs.length ∧
      (matchBlackHoleExec tag nm dm bhIpv4 bhIpv6 w qCtx).2.r ≠ some orp ∧
      (matchBlackHoleExec tag nm dm bhIpv4 bhIpv6 w qCtx).1.heap.get
          w.heap.msgs.length = some rm) ∧
    (∀ (msgKey : String) (now lazyTtl : Int) (w : World) (qCtx : QCtx)
        (rp op : Ptr) (om : Msg) (item : Item) (ct : Int),
      qCtx.r = some rp →
      qCtx.blackHoleOrigResp = some op →
      w.heap.get op = some om →
      saveRespToCache now om lazyTtl qCtx.blackHoleTag = some (item, ct) →
      cacheStorePhase msgKey now lazyTtl none w qCtx =
        { w with backend := backendSet w.backend msgKey item
                 storeCount := w.storeCount + 1 } ∧
      backendGet (cacheStorePhase msgKey now lazyTtl none w qCtx).backend
          msgKey = some item ∧
      item.resp = om ∧ item.blockHoleTag = qCtx.blackHoleTag) := by
  constructor
  · intro tag nm dm bhIpv4 bhIpv6 w qCtx orp om rm horp hom hmatch hbh
    have hsome : qCtx.r.isSome = true := by rw [horp]; rfl
    have hlt : orp < w.heap.msgs.length := by
      rcases List.get?_eq_some.1 hom with ⟨hl, _⟩
      exact hl
    have hout : matchBlackHoleExec tag nm dm bhIpv4 bhIpv6 w qCtx =
        ({ w with heap := { msgs := w.heap.msgs ++ [rm] } },
         { qCtx with blackHoleOrigResp := some orp, blackHoleTag := tag
                     r := some w.heap.msgs.length }) := by
      simp [matchBlackHoleExec, hmatch, hbh, hsome, horp, Heap.alloc]
    refine ⟨by rw [hout], by rw [hout], by rw [hout], ?_, ?_⟩
    · rw [hout]
      show some w.heap.msgs.length ≠ some orp
      simp only [ne_eq, Option.some.injEq]
      intro hcon
      rw [hcon] at hlt
      exact lt_irrefl _ hlt
    · rw [hout]
      exact get?_append_singleton_length w.heap.msgs rm
  · intro msgKey now lazyTtl w qCtx rp op om item ct hr ho hom hsave
    have hphase : cacheStorePhase msgKey now lazyTtl none w qCtx =
        { w with backend := backendSet w.backend msgKey item
                 storeCount := w.storeCount + 1 } := by
      simp only [cacheStorePhase, hr, ho]
      rw [if_pos (by simp)]
      simp only [saveRespToCacheP, hom, hsave]
    have hfields : item.resp = om ∧ item.blockHoleTag = qCtx.blackHoleTag := by
      rw [saveRespToCache_normal] at hsave
      by_cases htr : om.truncated
      · simp [htr] at hsave
      by_cases hskip : claimMsgTtl om ≤ 0 ∨
          (claimCacheTtl om lazyTtl ≤ 0 ∧ claimCacheTtl om lazyTtl ≠ keepTTL)
      · rw [if_neg htr, if_pos hskip] at hsave
        cases hsave
      rw [if_neg htr, if_neg hskip] at hsave
      injection hsave with h'
      injection h' with h1 h2
      rw [← h1]
      exact ⟨rfl, rfl⟩
    refine ⟨hphase, ?_, hfields.1, hfields.2⟩
    rw [hphase]
    exact backendGet_set_self w.backend msgKey item

/-- A net-list matcher predicate accepting exactly the address of
`respExample`'s answer. -/
def m9 : Addr → Bool := fun a =>
  match a with
  | Addr.v4 n => n == 9
  | _ => false

/-- Query context holding `respExample` (at heap slot 0) as the current
response. -/
def qCtxA : QCtx := ⟨qExample, some 0, none, ""⟩

/-- World for the interception witness. -/
def wA : World := ⟨⟨[respExample]⟩, [], 0⟩

/-- The black hole's synthesized answer for `qExample` (A 0.0.0.0,
TTL 300). -/
def bhResp : Msg :=
  { id := 7, rcode := rcodeSuccess, truncated := false
    question := qExample.question
    answer := [⟨"example.com.", typeA, classINET, 300, RData.a (Addr.v4 0)⟩]
    ns := [], extra := [] }

/-- Query context after the interception, as the cache's store phase sees
it: responses `bhResp` (slot 0) and original `respExample` (slot 1). -/
def qCtxB : QCtx := ⟨qExample, some 0, some 1, "bh"⟩

/-- World for the store-phase witness. -/
def wB : World := ⟨⟨[bhResp, respExample]⟩, [], 0⟩

/-- The item the store phase persists for `qCtxB`. -/
def itemB : Item :=
  { resp := respExample, blockHoleTag := "bh"
    storedTime := 0, expirationTime := 60 * second }

/-- C6 witness: a concrete interception preserves the original response
and tag, and the store phase persists the original (tagged "bh"), not the
rewrite. -/
theorem blackhole_originals_stored_witness :
    ((matchBlackHoleExec "bh" [m9] [] [Addr.v4 0] [] wA qCtxA).2.blackHoleOrigResp
        = some 0 ∧
      (matchBlackHoleExec "bh" [m9] [] [Addr.v4 0] [] wA qCtxA).2.blackHoleTag = "bh" ∧
      (matchBlackHoleExec "bh" [m9] [] [Addr.v4 0] [] wA qCtxA).2.r = some 1 ∧
      (matchBlackHoleExec "bh" [m9] [] [Addr.v4 0] [] wA qCtxA).2.r ≠ some 0 ∧
      (matchBlackHoleExec "bh" [m9] [] [Addr.v4 0] [] wA qCtxA).1.heap.get 1
        = some bhResp) ∧
    (cacheStorePhase "A:IN:example.com." 0 0 none wB qCtxB =
        { wB with backend := backendSet wB.backend "A:IN:example.com." itemB
                  storeCount := wB.storeCount + 1 } ∧
      backendGet (cacheStorePhase "A:IN:example.com." 0 0 none wB qCtxB).backend
          "A:IN:example.com." = some itemB ∧
      itemB.resp = respExample ∧ itemB.blockHoleTag = qCtxB.blackHoleTag) := by
  constructor
  · have h := blackhole_originals_stored.1 "bh" [m9] [] [Addr.v4 0] []
      wA qCtxA 0 respExample bhResp rfl (by decide) (by decide) (by decide)
    exact h
  · exact blackhole_originals_stored.2 "A:IN:example.com." 0 0 wB qCtxB
      0 1 respExample itemB (60 * second) rfl rfl (by decide) (by decide)

end Mosdns
